import Mathlib

/-!
Verification of the ELIN compiler core (`src/compiler/compiler.py`,
`src/compiler/expression_parser.py`, `src/compiler/ops.py`) together with the
superseded draft in `src/compiler/main.py`.

The compiler state (`self.bytecode`, `self.vars`, `self.next_var_index`)
is threaded explicitly; methods that may call `sys.exit(1)` are modelled in
the `Except Err` monad.  Bytecode instructions are the exact strings the
Python code appends.  The mutually recursive trio
`compile_raw` / `handle_while` / `handle_if` is given a fuel parameter so the
recursion is structural; running out of fuel is a distinct error, and every
general theorem below is conditioned on a successful (`.ok`) run, so the fuel
never weakens a statement.
-/

namespace Elin

/-- Error outcomes: each corresponds to a `print(...); sys.exit(1)` site in
`compiler.py`, plus `outOfFuel` for exhausted recursion fuel. -/
inductive Err where
  | outOfFuel
  | undefinedVariable (name : String)
  | noComparisonOperator
  | missingEnd
  | unknownCommand (cmd : String)
  | unusedVariables (names : List String)
  deriving DecidableEq, Repr

/-- Entry of the `self.vars` dict: `{'index': int, 'defined': bool, 'used': bool}`. -/
structure VarInfo where
  index : Nat
  defined : Bool
  used : Bool
  deriving DecidableEq, Repr

/-- Mutable state of the `Compiler` object. -/
structure CState where
  bytecode : List String
  vars : List (String × VarInfo)
  next_var_index : Nat
  package_name : String
  deriving DecidableEq, Repr

instance {ε α : Type} [DecidableEq ε] [DecidableEq α] : DecidableEq (Except ε α) :=
  fun a b =>
    match a, b with
    | .error e, .error e' =>
      if h : e = e' then isTrue (by rw [h]) else isFalse (by intro hh; cases hh; exact h rfl)
    | .ok x, .ok y =>
      if h : x = y then isTrue (by rw [h]) else isFalse (by intro hh; cases hh; exact h rfl)
    | .error _, .ok _ => isFalse (by intro hh; cases hh)
    | .ok _, .error _ => isFalse (by intro hh; cases hh)

/-- Fresh compiler, `Compiler.__init__`. -/
def initState (package_name : String) : CState :=
  { bytecode := [], vars := [], next_var_index := 0, package_name := package_name }

/-- Opcode `HALT` from `ops.py`. -/
def HALT : Nat := 9

/-- Arithmetic opcode map from `ops.py` (`OP_MAP`); `0` is never produced by a
key of the Python dict and stands for the impossible missing-key case. -/
def OP_MAP (tok : String) : Nat :=
  if tok = "+" then 4 else if tok = "-" then 5 else
  if tok = "*" then 6 else if tok = "/" then 7 else 0

/-- Keys of `OP_MAP`, used for the `token in OP_MAP` membership test. -/
def OP_MAP_keys : List String := ["+", "-", "*", "/"]

/-- Comparison opcode map from `ops.py` (`CMP_OP_MAP`); `0` as in `OP_MAP`. -/
def CMP_OP_MAP (tok : String) : Nat :=
  if tok = "==" then 10 else if tok = "!=" then 11 else
  if tok = "<" then 12 else if tok = "<=" then 13 else
  if tok = ">" then 14 else if tok = ">=" then 15 else 0

/-- `CMP_OPERATORS = list(CMP_OP_MAP.keys())` from `ops.py`. -/
def CMP_OPERATORS : List String := ["==", "!=", "<", "<=", ">", ">="]

/-- Character-level worker for Python `str.split()` without arguments:
whitespace runs separate tokens and produce no empty pieces.  (The standard
`String` functions are defined through byte positions, which the kernel cannot
evaluate, so the string primitives used by the compiler are modelled directly
on the character list.) -/
def splitWsAux : List Char → List Char → List (List Char)
  | [], acc => if acc.isEmpty then [] else [acc.reverse]
  | c :: cs, acc =>
    if c.isWhitespace then
      if acc.isEmpty then splitWsAux cs []
      else acc.reverse :: splitWsAux cs []
    else splitWsAux cs (c :: acc)

/-- Python `line.split()`. -/
def splitWs (s : String) : List String :=
  (splitWsAux s.data []).map String.mk

/-- Python `str.strip()`: drop leading and trailing whitespace. -/
def trimStr (s : String) : String :=
  String.mk (((s.data.dropWhile Char.isWhitespace).reverse.dropWhile Char.isWhitespace).reverse)

/-- Decide whether `pre` is a character-wise prefix of the other list. -/
def isPrefixOfChars : List Char → List Char → Bool
  | [], _ => true
  | _ :: _, [] => false
  | a :: as, b :: bs => a = b && isPrefixOfChars as bs

/-- Python `s.startswith(pre)`. -/
def startsWithStr (s pre : String) : Bool :=
  isPrefixOfChars pre.data s.data

/-- Python `s.isdigit()` (ASCII digits; false on the empty string). -/
def isdigit (s : String) : Bool :=
  !s.data.isEmpty && s.data.all Char.isDigit

/-- Rendered `PUSH` instruction, f-string `f"1 0 0 0 {value}"`. -/
def push_instr (value : String) : String := "1 0 0 0 " ++ value

/-- Rendered `LOAD` instruction, f-string `f"2 {index}"`. -/
def load_instr (index : Nat) : String := "2 " ++ toString index

/-- Rendered `STORE` instruction, f-string `f"3 {index}"`. -/
def store_instr (index : Nat) : String := "3 " ++ toString index

/-- Rendered `PRINT` instruction, f-string `f"8 {index}"`. -/
def print_instr (index : Nat) : String := "8 " ++ toString index

/-- Rendered unconditional jump, f-string `f"16 {addr}"`. -/
def jmp_instr (addr : Nat) : String := "16 " ++ toString addr

/-- Rendered jump-if-zero, f-string `f"17 {addr}"`. -/
def jz_instr (addr : Nat) : String := "17 " ++ toString addr

/-- Method `add_push`. -/
def add_push (value : String) (s : CState) : CState :=
  { s with bytecode := s.bytecode ++ [push_instr value] }

/-- Method `add_load`. -/
def add_load (index : Nat) (s : CState) : CState :=
  { s with bytecode := s.bytecode ++ [load_instr index] }

/-- Method `add_store`. -/
def add_store (index : Nat) (s : CState) : CState :=
  { s with bytecode := s.bytecode ++ [store_instr index] }

/-- Method `add_op`: appends `str(op_code)`. -/
def add_op (op_code : Nat) (s : CState) : CState :=
  { s with bytecode := s.bytecode ++ [toString op_code] }

/-- First-match lookup in the insertion-ordered variable table (Python dict
keyed by name; keys are unique since `define_variable` checks membership). -/
def lookupVar (vars : List (String × VarInfo)) (name : String) : Option VarInfo :=
  match vars with
  | [] => none
  | (n, info) :: rest => if n = name then some info else lookupVar rest name

/-- Set the `used` flag of `name`, `self.vars[name]['used'] = True`. -/
def markUsed (name : String) (s : CState) : CState :=
  { s with vars :=
      s.vars.map (fun p => if p.1 = name then (p.1, { p.2 with used := true }) else p) }

/-- Method `define_variable`. -/
def define_variable (name : String) (s : CState) : Nat × CState :=
  match lookupVar s.vars name with
  | some info => (info.index, s)
  | none =>
    (s.next_var_index,
      { s with
        vars := s.vars ++
          [(name, { index := s.next_var_index, defined := true, used := false })],
        next_var_index := s.next_var_index + 1 })

/-- Method `use_variable`: error if undefined, else mark used and return index. -/
def use_variable (name : String) (s : CState) : Except Err (Nat × CState) :=
  match lookupVar s.vars name with
  | none => .error (.undefinedVariable name)
  | some info => .ok (info.index, markUsed name s)

/-- Python `operand.isdigit() or (operand.startswith('-') and operand[1:].isdigit())`. -/
def is_numeric_literal (operand : String) : Bool :=
  isdigit operand || (startsWithStr operand "-" && isdigit (String.mk (operand.data.drop 1)))

/-- Method `parse_operand`. -/
def parse_operand (operand : String) (s : CState) : Except Err CState :=
  if is_numeric_literal operand then .ok (add_push operand s)
  else
    match use_variable operand s with
    | .error e => .error e
    | .ok (index, s₁) => .ok (add_load index s₁)

/-- Operator precedence, `get_priority` in `expression_parser.py`. -/
def get_priority (op : String) : Nat :=
  if op ∈ (["+", "-"] : List String) then 1
  else if op ∈ (["*", "/"] : List String) then 2
  else 0

/-- Local `operators` list of `infix_to_postfix` in `expression_parser.py`. -/
def operators : List String := ["+", "-", "*", "/"]

/-- Inner `while` of the operator case of `infix_to_postfix`: pop operators of
priority at least the current token's to the output (stack top at list head). -/
def popWhile (token : String) : List String → List String → List String × List String
  | [], out => (out, [])
  | top :: rest, out =>
    if top ∈ operators then
      if get_priority top ≥ get_priority token then popWhile token rest (out ++ [top])
      else (out, top :: rest)
    else (out, top :: rest)

/-- Inner `while` of the right-parenthesis case: pop to output until a `(`. -/
def popUntilParen : List String → List String → List String × List String
  | [], out => (out, [])
  | top :: rest, out =>
    if top ≠ "(" then popUntilParen rest (out ++ [top])
    else (out, top :: rest)

/-- Main scan of `infix_to_postfix`; at the end the operator stack is drained. -/
def shuntGo : List String → List String → List String → List String
  | [], out, stack => out ++ stack
  | token :: ts, out, stack =>
    if token = "(" then shuntGo ts out (token :: stack)
    else if token = ")" then
      let r := popUntilParen stack out
      let stack' := if r.2.isEmpty then r.2 else r.2.tail
      shuntGo ts r.1 stack'
    else if token ∈ operators then
      let r := popWhile token stack out
      shuntGo ts r.1 (token :: r.2)
    else shuntGo ts (out ++ [token]) stack

/-- Function `infix_to_postfix` from `expression_parser.py`. -/
def infix_to_postfix (expression : List String) : List String :=
  shuntGo expression [] []

/-- Loop body of `_compile_expression` over the postfix tokens. -/
def emit_tokens : List String → CState → Except Err CState
  | [], s => .ok s
  | token :: ts, s =>
    if OP_MAP_keys.contains token then emit_tokens ts (add_op (OP_MAP token) s)
    else
      match parse_operand token s with
      | .error e => .error e
      | .ok s₁ => emit_tokens ts s₁

/-- Method `_compile_expression`. -/
def compile_expression (expr_tokens : List String) (s : CState) : Except Err CState :=
  match expr_tokens with
  | [t] => parse_operand t s
  | _ => emit_tokens ( infix_to_postfix expr_tokens) s

/-- First comparison-operator position, the `for ... break` scans in
`handle_assignment` and `handle_comparison`. -/
def find_cmp_pos (expression : List String) : Option Nat :=
  expression.findIdx? (fun token => CMP_OPERATORS.contains token)

/-- Method `handle_assignment` (`let` statements). -/
def handle_assignment (segments : List String) (s : CState) : Except Err CState :=
  if segments.length < 4 then .ok s
  else
    let target_var := segments.getD 1 ""
    let d := define_variable target_var s
    let target_index := d.1
    let expression := segments.drop 3
    match find_cmp_pos expression with
    | some pos =>
      match compile_expression (expression.take pos) d.2 with
      | .error e => .error e
      | .ok s₁ =>
        match compile_expression (expression.drop (pos + 1)) s₁ with
        | .error e => .error e
        | .ok s₂ => .ok (add_store target_index (add_op (CMP_OP_MAP (expression.getD pos "")) s₂))
    | none =>
      match compile_expression expression d.2 with
      | .error e => .error e
      | .ok s₁ => .ok (add_store target_index s₁)

/-- Method `handle_comparison`. -/
def handle_comparison (segments : List String) (s : CState) : Except Err CState :=
  match find_cmp_pos segments with
  | none => .error .noComparisonOperator
  | some pos =>
    match compile_expression (segments.take pos) s with
    | .error e => .error e
    | .ok s₁ =>
      match compile_expression (segments.drop (pos + 1)) s₁ with
      | .error e => .error e
      | .ok s₂ => .ok (add_op (CMP_OP_MAP (segments.getD pos "")) s₂)

/-- Method `handle_print`. -/
def handle_print (segments : List String) (s : CState) : Except Err CState :=
  if segments.length < 2 then .ok s
  else
    let var_name := segments.getD 1 ""
    if is_numeric_literal var_name then
      let temp_var := "__literal_" ++ var_name
      let d := define_variable temp_var s
      let s₁ := markUsed temp_var (add_store d.1 (add_push var_name d.2))
      .ok { s₁ with bytecode := s₁.bytecode ++ [print_instr d.1] }
    else
      match use_variable var_name s with
      | .error e => .error e
      | .ok (index, s₁) => .ok { s₁ with bytecode := s₁.bytecode ++ [print_instr index] }

/-- Method `compile_line` (non-block statements). -/
def compile_line (line : String) (s : CState) : Except Err CState :=
  if line = "" || startsWithStr line "//" || startsWithStr line "#" then .ok s
  else if line = "end" || line = "else" || line = "wend" then .ok s
  else
    let segments := splitWs line
    let cmd := segments.headD ""
    if cmd = "let" then handle_assignment segments s
    else if cmd = "print" then handle_print segments s
    else if cmd = "halt" then .ok (add_op HALT s)
    else .error (.unknownCommand cmd)

/-- Inner loop of `_collect_block`: scan from just after the opening line with
nesting depth 1, collecting stripped lines through the matching close tag (or
to the end of input, with no error, if the close tag never appears). -/
def collect_loop (lines : List String) (openTag closeTag : String) (depth : Nat) :
    List String × List String :=
  match lines with
  | [] => ([], [])
  | l :: ls =>
    let curr := trimStr l
    let depth' := if startsWithStr curr openTag then depth + 1
      else if startsWithStr curr closeTag then depth - 1
      else depth
    if depth' = 0 then ([curr], ls)
    else
      let r := collect_loop ls openTag closeTag depth'
      (curr :: r.1, r.2)

/-- Method `_collect_block`: returns the inclusive block and the remaining lines. -/
def collect_block (lines : List String) (openTag closeTag : String) :
    List String × List String :=
  match lines with
  | [] => ([], [])
  | l :: ls =>
    let r := collect_loop ls openTag closeTag 1
    (trimStr l :: r.1, r.2)

/-- Scan of `handle_if` over `lines[1:]` locating the depth-0 `else` (last one
seen) and the first depth-0 `end`; `none` mirrors Python's `-1`. -/
def findEndElse : List String → Nat → Nat → Option Nat → Option Nat × Option Nat
  | [], _, _, elsePos => (elsePos, none)
  | l :: ls, i, depth, elsePos =>
    let line := trimStr l
    if startsWithStr line "if" then findEndElse ls (i + 1) (depth + 1) elsePos
    else if startsWithStr line "end" then
      if depth = 0 then (elsePos, some i)
      else findEndElse ls (i + 1) (depth - 1) elsePos
    else if line = "else" ∧ depth = 0 then findEndElse ls (i + 1) depth (some i)
    else findEndElse ls (i + 1) depth elsePos

mutual

/-- Method `compile_raw`: the statement-streaming driver loop. -/
def compile_raw : Nat → List String → CState → Except Err CState
  | 0, _, _ => .error .outOfFuel
  | _ + 1, [], s => .ok s
  | fuel + 1, l :: ls, s =>
    let line := trimStr l
    if line = "" || startsWithStr line "//" || startsWithStr line "#" then
      compile_raw fuel ls s
    else
      let segments := splitWs line
      let cmd := segments.headD ""
      if cmd = "while" then
        let r := collect_block (l :: ls) "while" "wend"
        match handle_while fuel (splitWs (r.1.headD "")).tail (r.1.tail.dropLast) s with
        | .error e => .error e
        | .ok s₁ => compile_raw fuel r.2 s₁
      else if cmd = "if" then
        let r := collect_block (l :: ls) "if" "end"
        let hasElse := r.1.any (fun b => trimStr b = "else")
        match handle_if fuel r.1 hasElse s with
        | .error e => .error e
        | .ok s₁ => compile_raw fuel r.2 s₁
      else
        match compile_line line s with
        | .error e => .error e
        | .ok s₁ => compile_raw fuel ls s₁

/-- Method `handle_while`: record start, compile condition, placeholder JZ,
body, back jump to start, patch the placeholder to the end address. -/
def handle_while : Nat → List String → List String → CState → Except Err CState
  | 0, _, _, _ => .error .outOfFuel
  | fuel + 1, while_condition, while_body, s =>
    let start_addr := s.bytecode.length
    match handle_comparison while_condition s with
    | .error e => .error e
    | .ok s₁ =>
      let jz_pos := s₁.bytecode.length
      let s₂ := { s₁ with bytecode := s₁.bytecode ++ ["PLACEHOLDER_JZ"] }
      match compile_raw fuel while_body s₂ with
      | .error e => .error e
      | .ok s₃ =>
        let s₄ := { s₃ with bytecode := s₃.bytecode ++ [ jmp_instr start_addr] }
        let end_addr := s₄.bytecode.length
        .ok { s₄ with bytecode := s₄.bytecode.set jz_pos ( jz_instr end_addr) }

/-- Method `handle_if`: locate `else`/`end`, compile the condition, then the
placeholder-and-patch protocol for one or two branches. -/
def handle_if : Nat → List String → Bool → CState → Except Err CState
  | 0, _, _, _ => .error .outOfFuel
  | fuel + 1, lines, hasElse, s =>
    let scan := findEndElse lines.tail 1 0 none
    match scan.2 with
    | none => .error .missingEnd
    | some end_pos =>
      match handle_comparison (splitWs (lines.headD "")).tail s with
      | .error e => .error e
      | .ok s₁ =>
        if hasElse ∧ scan.1.isSome then
          let else_pos := scan.1.getD 0
          let if_body := (lines.drop 1).take (else_pos - 1)
          let else_body := (lines.drop (else_pos + 1)).take (end_pos - else_pos - 1)
          let jz_pos := s₁.bytecode.length
          let s₂ := { s₁ with bytecode := s₁.bytecode ++ ["PLACEHOLDER_JZ"] }
          match compile_raw fuel if_body s₂ with
          | .error e => .error e
          | .ok s₃ =>
            let jmp_pos := s₃.bytecode.length
            let s₄ := { s₃ with bytecode := s₃.bytecode ++ ["PLACEHOLDER_JMP"] }
            let else_label := s₄.bytecode.length
            match compile_raw fuel else_body s₄ with
            | .error e => .error e
            | .ok s₅ =>
              let end_label := s₅.bytecode.length
              .ok { s₅ with bytecode :=
                (s₅.bytecode.set jz_pos ( jz_instr else_label)).set jmp_pos ( jmp_instr end_label) }
        else
          let if_body := (lines.drop 1).take (end_pos - 1)
          let jz_pos := s₁.bytecode.length
          let s₂ := { s₁ with bytecode := s₁.bytecode ++ ["PLACEHOLDER_JZ"] }
          match compile_raw fuel if_body s₂ with
          | .error e => .error e
          | .ok s₃ =>
            let end_label := s₃.bytecode.length
            .ok { s₃ with bytecode := s₃.bytecode.set jz_pos ( jz_instr end_label) }

end

/-- Names defined but with `used` still false, in insertion order
(`check_unused_variables`). -/
def unused_names (s : CState) : List String :=
  (s.vars.filter (fun p => !p.2.used)).map (fun p => p.1)

/-- Trailing-halt step of `compile`: append `HALT` unless the bytecode already
ends with `str(HALT)`. -/
def finalize (s : CState) : CState :=
  if s.bytecode = [] ∨ s.bytecode.getLast? ≠ some (toString HALT) then add_op HALT s else s

/-- Method `compile`: run the driver, append the trailing halt if needed, fail
on unused variables, else render the header plus bytecode. -/
def compile (fuel : Nat) (lines : List String) (s : CState) : Except Err String :=
  match compile_raw fuel lines s with
  | .error e => .error e
  | .ok s₁ =>
    let s₂ := finalize s₁
    if unused_names s₂ ≠ [] then .error (.unusedVariables (unused_names s₂))
    else .ok (String.intercalate "\n"
      (["# Package: " ++ s₂.package_name, "#", "#", "#"] ++ s₂.bytecode))

end Elin

namespace Elin

/-! ### Instruction well-formedness

`plainInstr` holds for the instruction strings emitted by the straight-line
statement handlers: they are not placeholders, and they do not even share a
three-character prefix with a rendered jump.  `instrOk L` is the per-element
invariant of a finished program of length `L`: no placeholder survives, and
anything shaped like a jump is a rendered jump whose target is at most `L`. -/

def plainInstr (x : String) : Prop :=
  x ≠ "PLACEHOLDER_JZ" ∧ x ≠ "PLACEHOLDER_JMP" ∧
  x.data.take 3 ≠ ['1', '6', ' '] ∧ x.data.take 3 ≠ ['1', '7', ' ']

def instrOk (L : Nat) (x : String) : Prop :=
  x ≠ "PLACEHOLDER_JZ" ∧ x ≠ "PLACEHOLDER_JMP" ∧
  ((x.data.take 3 = ['1', '6', ' '] ∨ x.data.take 3 = ['1', '7', ' ']) →
    ∃ n, n ≤ L ∧ (x = jmp_instr n ∨ x = jz_instr n))

instance (x : String) : Decidable (plainInstr x) := by
  unfold plainInstr; infer_instance

/-- Successful emission extends the bytecode and every new entry satisfies the
program invariant at the new length. -/
def okExtends (bc bc' : List String) : Prop :=
  ∃ tl, bc' = bc ++ tl ∧ ∀ x ∈ tl, instrOk bc'.length x

namespace MainDraft

/-- Method `priority` of the superseded draft compiler in `main.py`. -/
def priority (op : String) : Nat :=
  if op = "+" ∨ op = "-" then 1
  else if op = "*" ∨ op = "/" then 2
  else 0

/-- Inner `while` of the operator case of the draft `infix_to_postfix` in
`main.py` (stack top at list head). -/
def popWhile (token : String) : List String → List String → List String × List String
  | [], out => (out, [])
  | top :: rest, out =>
    if top ∈ (["+", "-", "*", "/"] : List String) then
      if priority top ≥ priority token then popWhile token rest (out ++ [top])
      else (out, top :: rest)
    else (out, top :: rest)

/-- Inner `while` of the right-parenthesis case of the draft. -/
def popUntilParen : List String → List String → List String × List String
  | [], out => (out, [])
  | top :: rest, out =>
    if top ≠ "(" then popUntilParen rest (out ++ [top])
    else (out, top :: rest)

/-- Main scan of the draft `Compiler.infix_to_postfix`, draining the operator
stack at the end. -/
def shuntGo : List String → List String → List String → List String
  | [], out, stack => out ++ stack
  | token :: ts, out, stack =>
    if token = "(" then shuntGo ts out (token :: stack)
    else if token = ")" then
      let r := popUntilParen stack out
      let stack' := if r.2.isEmpty then r.2 else r.2.tail
      shuntGo ts r.1 stack'
    else if token ∈ (["+", "-", "*", "/"] : List String) then
      let r := popWhile token stack out
      shuntGo ts r.1 (token :: r.2)
    else shuntGo ts (out ++ [token]) stack

/-- Method `Compiler.infix_to_postfix` of the superseded draft in `main.py`. -/
def infix_to_postfix (expression : List String) : List String :=
  shuntGo expression [] []

end MainDraft

theorem plainInstr.instrOk {x : String} (h : plainInstr x) (L : Nat) : instrOk L x :=
  ⟨h.1, h.2.1, fun hj => absurd hj (by rcases h with ⟨-, -, h3, h4⟩; simp [h3, h4])⟩

theorem instrOk_mono {L L' : Nat} (hL : L ≤ L') {x : String} (h : instrOk L x) : instrOk L' x :=
  ⟨h.1, h.2.1, fun hj => by
    obtain ⟨n, hn, hx⟩ := h.2.2 hj
    exact ⟨n, hn.trans hL, hx⟩⟩

theorem head_of_take3 {l : List Char} {a b c : Char} (h : l.take 3 = [a, b, c]) :
    l.head? = some a := by
  cases l with
  | nil => simp at h
  | cons x xs =>
    simp only [List.take, List.cons.injEq] at h
    simp [h.1]

theorem second_of_take3 {l : List Char} {a b c : Char} (h : l.take 3 = [a, b, c]) :
    l.tail.head? = some b := by
  cases l with
  | nil => simp at h
  | cons x xs =>
    cases xs with
    | nil => simp [List.take] at h
    | cons y ys =>
      simp only [List.take, List.cons.injEq] at h
      simp [h.2.1]

theorem plain_push (v : String) : plainInstr (push_instr v) := by
  refine ⟨fun h => ?_, fun h => ?_, fun h => ?_, fun h => ?_⟩
  · exact absurd (show some '1' = some 'P' from congrArg (fun t => t.data.head?) h) (by decide)
  · exact absurd (show some '1' = some 'P' from congrArg (fun t => t.data.head?) h) (by decide)
  · exact absurd (show (push_instr v).data.tail.head? = some '6' from second_of_take3 h)
      (by exact fun hh => absurd (show some ' ' = some '6' from hh) (by decide))
  · exact absurd (show (push_instr v).data.tail.head? = some '7' from second_of_take3 h)
      (by exact fun hh => absurd (show some ' ' = some '7' from hh) (by decide))

theorem plain_of_head {x : String} (c : Char) (hc : x.data.head? = some c)
    (h1 : c ≠ 'P') (h2 : c ≠ '1') : plainInstr x := by
  refine ⟨fun h => ?_, fun h => ?_, fun h => ?_, fun h => ?_⟩
  · rw [h] at hc; exact h1 (by cases hc; rfl)
  · rw [h] at hc; exact h1 (by cases hc; rfl)
  · have := head_of_take3 h; rw [hc] at this; exact h2 (by cases this; rfl)
  · have := head_of_take3 h; rw [hc] at this; exact h2 (by cases this; rfl)

theorem plain_load (i : Nat) : plainInstr (load_instr i) :=
  plain_of_head '2' rfl (by decide) (by decide)

theorem plain_store (i : Nat) : plainInstr (store_instr i) :=
  plain_of_head '3' rfl (by decide) (by decide)

theorem plain_print (i : Nat) : plainInstr (print_instr i) :=
  plain_of_head '8' rfl (by decide) (by decide)

theorem plain_op_map (t : String) : plainInstr (toString (OP_MAP t)) := by
  unfold OP_MAP
  repeat' split
  all_goals decide

theorem plain_cmp_op_map (t : String) : plainInstr (toString (CMP_OP_MAP t)) := by
  unfold CMP_OP_MAP
  repeat' split
  all_goals decide

theorem plain_halt : plainInstr (toString HALT) := by decide

theorem jmp_instrOk {n L : Nat} (h : n ≤ L) : instrOk L ( jmp_instr n) := by
  refine ⟨fun hh => ?_, fun hh => ?_, fun _ => ⟨n, h, Or.inl rfl⟩⟩
  · exact absurd (show some '1' = some 'P' from congrArg (fun t => t.data.head?) hh) (by decide)
  · exact absurd (show some '1' = some 'P' from congrArg (fun t => t.data.head?) hh) (by decide)

theorem jz_instrOk {n L : Nat} (h : n ≤ L) : instrOk L ( jz_instr n) := by
  refine ⟨fun hh => ?_, fun hh => ?_, fun _ => ⟨n, h, Or.inr rfl⟩⟩
  · exact absurd (show some '1' = some 'P' from congrArg (fun t => t.data.head?) hh) (by decide)
  · exact absurd (show some '1' = some 'P' from congrArg (fun t => t.data.head?) hh) (by decide)

/-- Overwriting the element just after a known prefix. -/
theorem set_append_len {α : Type} (l₁ : List α) (x : α) (l₂ : List α) (a : α) :
    (l₁ ++ x :: l₂).set l₁.length a = l₁ ++ a :: l₂ := by
  induction l₁ with
  | nil => rfl
  | cons y ys ih => simp [List.set, ih]

/-! ### Emitted-code shape of the straight-line handlers

Each handler only appends to the bytecode; on success the new suffix consists
of `plainInstr` strings. -/

theorem markUsed_bytecode (name : String) (s : CState) :
    (markUsed name s).bytecode = s.bytecode := rfl

theorem define_variable_bytecode (name : String) (s : CState) :
    (define_variable name s).2.bytecode = s.bytecode := by
  unfold define_variable
  split <;> rfl

theorem use_variable_ok_bytecode {name : String} {s : CState} {p : Nat × CState}
    (h : use_variable name s = .ok p) : p.2.bytecode = s.bytecode := by
  unfold use_variable at h
  split at h
  · cases h
  · cases h; rfl

theorem parse_operand_shape {t : String} {s s' : CState} (h : parse_operand t s = .ok s') :
    ∃ tl, s'.bytecode = s.bytecode ++ tl ∧ ∀ x ∈ tl, plainInstr x := by
  unfold parse_operand at h
  split at h
  · cases h
    exact ⟨[push_instr t], rfl, by intro x hx; simp at hx; subst hx; exact plain_push t⟩
  · split at h
    · cases h
    · rename_i idx s₁ heq
      cases h
      have hb : s₁.bytecode = s.bytecode := use_variable_ok_bytecode heq
      refine ⟨[load_instr idx], ?_, ?_⟩
      · simp [add_load, hb]
      · intro x hx; simp at hx; subst hx; exact plain_load idx

theorem emit_tokens_shape : ∀ (ts : List String) (s s' : CState),
    emit_tokens ts s = .ok s' →
    ∃ tl, s'.bytecode = s.bytecode ++ tl ∧ ∀ x ∈ tl, plainInstr x := by
  intro ts
  induction ts with
  | nil =>
    intro s s' h
    simp only [emit_tokens] at h
    cases h
    exact ⟨[], by simp, by simp⟩
  | cons t ts ih =>
    intro s s' h
    simp only [emit_tokens] at h
    split at h
    · obtain ⟨tl, htl, hp⟩ := ih _ _ h
      refine ⟨toString (OP_MAP t) :: tl, ?_, ?_⟩
      · rw [htl]; simp [add_op]
      · intro x hx
        rcases List.mem_cons.mp hx with hx | hx
        · subst hx; exact plain_op_map t
        · exact hp x hx
    · split at h
      · cases h
      · rename_i s₁ heq
        obtain ⟨tl₁, h₁, hp₁⟩ := parse_operand_shape heq
        obtain ⟨tl₂, h₂, hp₂⟩ := ih _ _ h
        refine ⟨tl₁ ++ tl₂, ?_, ?_⟩
        · rw [h₂, h₁, List.append_assoc]
        · intro x hx
          rcases List.mem_append.mp hx with hx | hx
          · exact hp₁ x hx
          · exact hp₂ x hx

theorem compile_expression_shape {ts : List String} {s s' : CState}
    (h : compile_expression ts s = .ok s') :
    ∃ tl, s'.bytecode = s.bytecode ++ tl ∧ ∀ x ∈ tl, plainInstr x := by
  unfold compile_expression at h
  split at h
  · exact parse_operand_shape h
  · exact emit_tokens_shape _ _ _ h

theorem handle_comparison_shape {segs : List String} {s s' : CState}
    (h : handle_comparison segs s = .ok s') :
    ∃ tl, s'.bytecode = s.bytecode ++ tl ∧ ∀ x ∈ tl, plainInstr x := by
  unfold handle_comparison at h
  split at h
  · cases h
  · rename_i pos hpos
    split at h
    · cases h
    · rename_i s₁ h₁
      split at h
      · cases h
      · rename_i s₂ h₂
        cases h
        obtain ⟨t₁, e₁, p₁⟩ := compile_expression_shape h₁
        obtain ⟨t₂, e₂, p₂⟩ := compile_expression_shape h₂
        refine ⟨t₁ ++ (t₂ ++ [toString (CMP_OP_MAP (segs.getD pos ""))]), ?_, ?_⟩
        · simp [add_op, e₂, e₁, List.append_assoc]
        · intro x hx
          simp only [List.mem_append, List.mem_singleton] at hx
          rcases hx with hx | hx | hx
          · exact p₁ x hx
          · exact p₂ x hx
          · subst hx; exact plain_cmp_op_map _

theorem handle_assignment_shape {segs : List String} {s s' : CState}
    (h : handle_assignment segs s = .ok s') :
    ∃ tl, s'.bytecode = s.bytecode ++ tl ∧ ∀ x ∈ tl, plainInstr x := by
  unfold handle_assignment at h
  split at h
  · cases h; exact ⟨[], by simp, by simp⟩
  · dsimp only at h
    split at h
    · rename_i pos hpos
      split at h
      · cases h
      · rename_i s₁ h₁
        split at h
        · cases h
        · rename_i s₂ h₂
          cases h
          obtain ⟨t₁, e₁, p₁⟩ := compile_expression_shape h₁
          obtain ⟨t₂, e₂, p₂⟩ := compile_expression_shape h₂
          rw [define_variable_bytecode] at e₁
          refine ⟨t₁ ++ (t₂ ++ [toString (CMP_OP_MAP ((List.drop 3 segs).getD pos "")),
            store_instr (define_variable (segs.getD 1 "") s).1]), ?_, ?_⟩
          · simp [add_store, add_op, e₂, e₁, List.append_assoc]
          · intro x hx
            simp only [List.mem_append, List.mem_cons, List.mem_singleton,
              List.not_mem_nil, or_false] at hx
            rcases hx with hx | hx | hx | hx
            · exact p₁ x hx
            · exact p₂ x hx
            · subst hx; exact plain_cmp_op_map _
            · subst hx; exact plain_store _
    · split at h
      · cases h
      · rename_i s₁ h₁
        cases h
        obtain ⟨t₁, e₁, p₁⟩ := compile_expression_shape h₁
        rw [define_variable_bytecode] at e₁
        refine ⟨t₁ ++ [store_instr (define_variable (segs.getD 1 "") s).1], ?_, ?_⟩
        · simp [add_store, e₁, List.append_assoc]
        · intro x hx
          rcases List.mem_append.mp hx with hx | hx
          · exact p₁ x hx
          · simp at hx; subst hx; exact plain_store _

theorem handle_print_shape {segs : List String} {s s' : CState}
    (h : handle_print segs s = .ok s') :
    ∃ tl, s'.bytecode = s.bytecode ++ tl ∧ ∀ x ∈ tl, plainInstr x := by
  unfold handle_print at h
  split at h
  · cases h; exact ⟨[], by simp, by simp⟩
  · dsimp only at h
    split at h
    · cases h
      refine ⟨[push_instr (segs.getD 1 ""),
        store_instr (define_variable ("__literal_" ++ segs.getD 1 "") s).1,
        print_instr (define_variable ("__literal_" ++ segs.getD 1 "") s).1], ?_, ?_⟩
      · simp [markUsed_bytecode, add_store, add_push, define_variable_bytecode,
          List.append_assoc]
      · intro x hx
        simp only [List.mem_cons, List.mem_singleton, List.not_mem_nil, or_false] at hx
        rcases hx with hx | hx | hx
        · subst hx; exact plain_push _
        · subst hx; exact plain_store _
        · subst hx; exact plain_print _
    · split at h
      · cases h
      · rename_i idx s₁ heq
        cases h
        have hb : s₁.bytecode = s.bytecode := use_variable_ok_bytecode heq
        refine ⟨[print_instr idx], ?_, ?_⟩
        · simp [hb]
        · intro x hx; simp at hx; subst hx; exact plain_print _

theorem compile_line_shape {line : String} {s s' : CState}
    (h : compile_line line s = .ok s') :
    ∃ tl, s'.bytecode = s.bytecode ++ tl ∧ ∀ x ∈ tl, plainInstr x := by
  unfold compile_line at h
  split at h
  · cases h; exact ⟨[], by simp, by simp⟩
  · split at h
    · cases h; exact ⟨[], by simp, by simp⟩
    · dsimp only at h
      split at h
      · exact handle_assignment_shape h
      · split at h
        · exact handle_print_shape h
        · split at h
          · cases h
            refine ⟨[toString HALT], by simp [add_op], ?_⟩
            intro x hx; simp at hx; subst hx; exact plain_halt
          · cases h

/-! ### Emitted-code shape of the recursive trio -/

theorem okExtends_rfl (bc : List String) : okExtends bc bc :=
  ⟨[], by simp, by simp⟩

theorem okExtends_len {bc bc' : List String} (h : okExtends bc bc') :
    bc.length ≤ bc'.length := by
  obtain ⟨tl, rfl, -⟩ := h
  simp

theorem okExtends_trans {a b c : List String} (h₁ : okExtends a b) (h₂ : okExtends b c) :
    okExtends a c := by
  obtain ⟨t₁, rfl, p₁⟩ := h₁
  obtain ⟨t₂, rfl, p₂⟩ := h₂
  refine ⟨t₁ ++ t₂, by simp, ?_⟩
  intro x hx
  rcases List.mem_append.mp hx with hx | hx
  · exact instrOk_mono (by simp) (p₁ x hx)
  · exact p₂ x hx

theorem okExtends_of_plain {bc bc' tl : List String} (he : bc' = bc ++ tl)
    (hp : ∀ x ∈ tl, plainInstr x) : okExtends bc bc' :=
  ⟨tl, he, fun x hx => (hp x hx).instrOk _⟩

theorem trio_shape : ∀ fuel : Nat,
    (∀ lines s s', compile_raw fuel lines s = .ok s' → okExtends s.bytecode s'.bytecode)
    ∧ (∀ cond body s s', handle_while fuel cond body s = .ok s' →
        okExtends s.bytecode s'.bytecode)
    ∧ (∀ lines he s s', handle_if fuel lines he s = .ok s' →
        okExtends s.bytecode s'.bytecode) := by
  intro fuel
  induction fuel with
  | zero =>
    refine ⟨?_, ?_, ?_⟩
    · intro lines s s' h; cases h
    · intro cond body s s' h; cases h
    · intro lines he s s' h; cases h
  | succ fuel ih =>
    obtain ⟨ihr, ihw, ihi⟩ := ih
    refine ⟨?_, ?_, ?_⟩
    · -- compile_raw
      intro lines s s' h
      cases lines with
      | nil => simp only [compile_raw] at h; cases h; exact okExtends_rfl _
      | cons l ls =>
        simp only [compile_raw] at h
        split at h
        · exact ihr _ _ _ h
        · split at h
          · split at h
            · cases h
            · rename_i s₁ hw
              exact okExtends_trans (ihw _ _ _ _ hw) (ihr _ _ _ h)
          · split at h
            · split at h
              · cases h
              · rename_i s₁ hifo
                exact okExtends_trans (ihi _ _ _ _ hifo) (ihr _ _ _ h)
            · split at h
              · cases h
              · rename_i s₁ hcl
                obtain ⟨tl, he, hp⟩ := compile_line_shape hcl
                exact okExtends_trans (okExtends_of_plain he hp) (ihr _ _ _ h)
    · -- handle_while
      intro cond body s s' h
      simp only [handle_while] at h
      split at h
      · cases h
      · rename_i s₁ hcmp
        split at h
        · cases h
        · rename_i s₃ hbody
          cases h
          obtain ⟨c, hc, hcp⟩ := handle_comparison_shape hcmp
          obtain ⟨b, hb, hbp⟩ := ihr _ _ _ hbody
          simp only [hc] at hb ⊢
          rw [hb]
          rw [show (s.bytecode ++ c ++ ["PLACEHOLDER_JZ"] ++ b) ++
                [ jmp_instr s.bytecode.length] =
              (s.bytecode ++ c) ++ ("PLACEHOLDER_JZ" ::
                (b ++ [ jmp_instr s.bytecode.length])) from by simp,
            set_append_len]
          refine ⟨c ++ ( jz_instr (s.bytecode.length + c.length + (b.length + 2)) ::
            (b ++ [ jmp_instr s.bytecode.length])), ?_, ?_⟩
          · simp [Nat.add_assoc]
          · intro x hx
            simp only [List.length_append, List.length_cons, List.length_singleton,
              List.length_nil, List.mem_append, List.mem_cons, List.mem_singleton, List.not_mem_nil,
              or_false] at hx ⊢
            rcases hx with hx | hx | hx | hx
            · exact instrOk_mono (by omega) ((hcp x hx).instrOk 0)
            · subst hx
              exact jz_instrOk (by omega)
            · have := hbp x hx
              simp only [hb, List.length_append, List.length_cons,
                List.length_singleton, List.length_nil] at this
              exact instrOk_mono (by omega) this
            · subst hx
              exact jmp_instrOk (by omega)
    · -- handle_if
      intro lines he s s' h
      simp only [handle_if] at h
      split at h
      · cases h
      · rename_i end_pos hscan
        split at h
        · cases h
        · rename_i s₁ hcmp
          obtain ⟨c, hc, hcp⟩ := handle_comparison_shape hcmp
          split at h
          · -- else branch present
            split at h
            · cases h
            · rename_i s₃ hthen
              split at h
              · cases h
              · rename_i s₅ helse
                cases h
                obtain ⟨tb, htb, htbp⟩ := ihr _ _ _ hthen
                obtain ⟨eb, heb, hebp⟩ := ihr _ _ _ helse
                simp only [hc] at htb
                simp only [htb] at heb ⊢
                simp only [hc] at heb ⊢
                rw [heb]
                rw [show s.bytecode ++ c ++ ["PLACEHOLDER_JZ"] ++ tb ++
                      ["PLACEHOLDER_JMP"] ++ eb =
                    (s.bytecode ++ c) ++ ("PLACEHOLDER_JZ" ::
                      (tb ++ "PLACEHOLDER_JMP" :: eb)) from by simp,
                  set_append_len]
                rw [show (s.bytecode ++ c) ++ ( jz_instr
                      ((s.bytecode ++ c ++ ["PLACEHOLDER_JZ"] ++ tb ++
                        ["PLACEHOLDER_JMP"]).length) ::
                      (tb ++ "PLACEHOLDER_JMP" :: eb)) =
                    ((s.bytecode ++ c) ++ jz_instr
                      ((s.bytecode ++ c ++ ["PLACEHOLDER_JZ"] ++ tb ++
                        ["PLACEHOLDER_JMP"]).length) :: tb) ++
                      ("PLACEHOLDER_JMP" :: eb) from by simp]
                rw [show (s.bytecode ++ c ++ ["PLACEHOLDER_JZ"] ++ tb).length =
                    ((s.bytecode ++ c) ++ jz_instr
                      ((s.bytecode ++ c ++ ["PLACEHOLDER_JZ"] ++ tb ++
                        ["PLACEHOLDER_JMP"]).length) :: tb).length from by simp,
                  set_append_len]
                refine ⟨c ++ ( jz_instr ((s.bytecode ++ c ++ ["PLACEHOLDER_JZ"] ++ tb ++
                    ["PLACEHOLDER_JMP"]).length) ::
                  (tb ++ ( jmp_instr ((s.bytecode ++ c ++ ["PLACEHOLDER_JZ"] ++ tb ++
                    ["PLACEHOLDER_JMP"] ++ eb).length) :: eb))), ?_, ?_⟩
                · simp
                · intro x hx
                  simp only [List.length_append, List.length_cons, List.length_singleton,
                    List.length_nil, List.mem_append, List.mem_cons, List.mem_singleton, List.not_mem_nil,
                    or_false] at hx ⊢
                  rcases hx with hx | hx | hx | hx | hx
                  · exact instrOk_mono (by omega) ((hcp x hx).instrOk 0)
                  · subst hx
                    exact jz_instrOk (by omega)
                  · have := htbp x hx
                    simp only [htb, hc, List.length_append, List.length_cons,
                      List.length_singleton, List.length_nil] at this
                    exact instrOk_mono (by omega) this
                  · subst hx
                    exact jmp_instrOk (by omega)
                  · have := hebp x hx
                    simp only [heb, htb, hc, List.length_append, List.length_cons,
                      List.length_singleton, List.length_nil] at this
                    exact instrOk_mono (by omega) this
          · -- no else branch
            split at h
            · cases h
            · rename_i s₃ hthen
              cases h
              obtain ⟨tb, htb, htbp⟩ := ihr _ _ _ hthen
              simp only [hc] at htb ⊢
              rw [htb]
              rw [show s.bytecode ++ c ++ ["PLACEHOLDER_JZ"] ++ tb =
                  (s.bytecode ++ c) ++ ("PLACEHOLDER_JZ" :: tb) from by simp,
                set_append_len]
              refine ⟨c ++ ( jz_instr (s.bytecode.length + c.length + (tb.length + 1)) :: tb),
                ?_, ?_⟩
              · simp [Nat.add_assoc]
              · intro x hx
                simp only [List.length_append, List.length_cons, List.length_singleton,
                  List.length_nil, List.mem_append, List.mem_cons, List.mem_singleton, List.not_mem_nil,
                  or_false] at hx ⊢
                rcases hx with hx | hx | hx
                · exact instrOk_mono (by omega) ((hcp x hx).instrOk 0)
                · subst hx
                  exact jz_instrOk (by omega)
                · have := htbp x hx
                  simp only [htb, hc, List.length_append, List.length_cons,
                    List.length_singleton, List.length_nil] at this
                  exact instrOk_mono (by omega) this

/-! ### Symbol-table lemmas -/

theorem lookupVar_append_none {vars : List (String × VarInfo)} {name : String}
    (h : lookupVar vars name = none) (i : VarInfo) :
    lookupVar (vars ++ [(name, i)]) name = some i := by
  induction vars with
  | nil => simp [lookupVar]
  | cons p rest ih =>
    obtain ⟨n, info⟩ := p
    unfold lookupVar at h ⊢
    split at h
    · cases h
    · rename_i hne
      simp only [List.cons_append]
      rw [if_neg hne]
      exact ih h

theorem lookupVar_map_mark (vars : List (String × VarInfo)) (name : String) :
    lookupVar (vars.map (fun p => if p.1 = name then (p.1, { p.2 with used := true }) else p))
        name =
      (lookupVar vars name).map (fun i => { i with used := true }) := by
  induction vars with
  | nil => rfl
  | cons p rest ih =>
    obtain ⟨n, info⟩ := p
    simp only [List.map_cons]
    by_cases hp : n = name
    · subst hp
      rw [show (if ((n : String), info).1 = n then ((n, info).1, { (n, info).2 with used := true })
          else (n, info)) = (n, { info with used := true }) from by simp]
      unfold lookupVar
      rw [if_pos rfl, if_pos rfl]
      simp
    · rw [show (if ((n : String), info).1 = name then
            ((n, info).1, { (n, info).2 with used := true })
          else (n, info)) = (n, info) from by simp [hp]]
      unfold lookupVar
      rw [if_neg hp, if_neg hp]
      exact ih

theorem lookupVar_markUsed (name : String) (s : CState) :
    lookupVar (markUsed name s).vars name =
      (lookupVar s.vars name).map (fun i => { i with used := true }) :=
  lookupVar_map_mark s.vars name

theorem lookupVar_define (name : String) (s : CState) :
    ∃ info, lookupVar (define_variable name s).2.vars name = some info ∧
      info.index = (define_variable name s).1 := by
  unfold define_variable
  cases hl : lookupVar s.vars name with
  | some info => exact ⟨info, by simp [hl], rfl⟩
  | none => exact ⟨_, lookupVar_append_none hl _, rfl⟩

/-! ### Claim theorems -/

/-- C5: the expression lowerer maps `a + b * c` to postfix `a b c * +` and
`( a + b ) * c` to `a b + c *`, with `+`/`-` at precedence level 1 and
`*`/`/` at level 2 (`get_priority`). -/
theorem precedence_examples :
    infix_to_postfix ["a", "+", "b", "*", "c"] = ["a", "b", "c", "*", "+"]
    ∧ infix_to_postfix ["(", "a", "+", "b", ")", "*", "c"] = ["a", "b", "+", "c", "*"]
    ∧ get_priority "+" = 1 ∧ get_priority "-" = 1
    ∧ get_priority "*" = 2 ∧ get_priority "/" = 2 := by
  refine ⟨by decide, by decide, by decide, by decide, by decide, by decide⟩

/-- C6: after a successful driver run, `compile` fails with `UnusedVariables`
naming exactly the defined-but-unused variables (in insertion order) and
produces no output when that list is non-empty, and succeeds when it is
empty. -/
theorem compile_unused_gate {fuel : Nat} {lines : List String} {pkg : String} {s' : CState}
    (h : compile_raw fuel lines (initState pkg) = .ok s') :
    (unused_names s' ≠ [] →
      compile fuel lines (initState pkg) = .error (.unusedVariables (unused_names s')))
    ∧ (unused_names s' = [] → ∃ out, compile fuel lines (initState pkg) = .ok out) := by
  have hvars : (finalize s').vars = s'.vars := by
    unfold finalize
    split <;> rfl
  have hu : unused_names (finalize s') = unused_names s' := by
    unfold unused_names
    rw [hvars]
  constructor
  · intro hne
    unfold compile
    rw [h]
    simp only [hu]
    rw [if_pos hne]
  · intro heq
    unfold compile
    rw [h]
    simp only [hu]
    rw [if_neg (by simp [heq])]
    exact ⟨_, rfl⟩

/-- C7: `use_variable` is the read gate: on a defined name it marks it used
and returns its slot; on an undefined name it fails with `UndefinedVariable`,
and so do the reads that go through it — a `Load` operand
(`parse_operand`) and a `print` operand (`handle_print`). -/
theorem variable_use_gate (name : String) (s : CState) :
    (∀ info, lookupVar s.vars name = some info →
      use_variable name s = .ok (info.index, markUsed name s)
      ∧ lookupVar (markUsed name s).vars name = some { info with used := true })
    ∧ (lookupVar s.vars name = none →
      use_variable name s = .error (.undefinedVariable name)
      ∧ (is_numeric_literal name = false →
        parse_operand name s = .error (.undefinedVariable name)
        ∧ handle_print ["print", name] s = .error (.undefinedVariable name))) := by
  constructor
  · intro info hinfo
    constructor
    · unfold use_variable
      rw [hinfo]
    · rw [lookupVar_markUsed, hinfo]
      rfl
  · intro hnone
    have hu : use_variable name s = .error (.undefinedVariable name) := by
      unfold use_variable
      rw [hnone]
    refine ⟨hu, fun hlit => ⟨?_, ?_⟩⟩
    · unfold parse_operand
      rw [hlit]
      simp [hu]
    · unfold handle_print
      rw [if_neg (by simp)]
      dsimp only
      rw [show (["print", name].getD 1 "") = name from rfl, hlit]
      simp [hu]

/-- C8: an output statement with a numeric literal materializes the literal in
a synthetic variable named `__literal_<value>` — defined, immediately marked
used — emitting `Push`, `Store`, `Print` on its slot; an output statement
with a name requires the name to be defined (else `UndefinedVariable`) and
emits a single `Print` of its slot, marking it used. -/
theorem print_statement_spec (value : String) (s : CState) :
    (is_numeric_literal value = true →
      ∃ s' info, handle_print ["print", value] s = .ok s'
        ∧ s'.bytecode = s.bytecode ++
            [push_instr value, store_instr (define_variable ("__literal_" ++ value) s).1,
              print_instr (define_variable ("__literal_" ++ value) s).1]
        ∧ lookupVar s'.vars ("__literal_" ++ value) = some info
        ∧ info.index = (define_variable ("__literal_" ++ value) s).1
        ∧ info.used = true)
    ∧ (is_numeric_literal value = false →
      (lookupVar s.vars value = none →
        handle_print ["print", value] s = .error (.undefinedVariable value))
      ∧ (∀ info, lookupVar s.vars value = some info →
        handle_print ["print", value] s =
          .ok { markUsed value s with bytecode := s.bytecode ++ [print_instr info.index] })) := by
  constructor
  · intro hlit
    obtain ⟨info, hinfo, hidx⟩ := lookupVar_define ("__literal_" ++ value) s
    have hrun : handle_print ["print", value] s =
        .ok { markUsed ("__literal_" ++ value)
                (add_store (define_variable ("__literal_" ++ value) s).1
                  (add_push value (define_variable ("__literal_" ++ value) s).2)) with
              bytecode := (markUsed ("__literal_" ++ value)
                (add_store (define_variable ("__literal_" ++ value) s).1
                  (add_push value (define_variable ("__literal_" ++ value) s).2))).bytecode ++
                [print_instr (define_variable ("__literal_" ++ value) s).1] } := by
      unfold handle_print
      rw [if_neg (by simp)]
      dsimp only
      rw [show (["print", value].getD 1 "") = value from rfl, hlit]
      simp
    refine ⟨_, { info with used := true }, hrun, ?_, ?_, ?_, rfl⟩
    · simp [markUsed_bytecode, add_store, add_push, define_variable_bytecode,
        List.append_assoc]
    · rw [show ({ markUsed ("__literal_" ++ value)
                (add_store (define_variable ("__literal_" ++ value) s).1
                  (add_push value (define_variable ("__literal_" ++ value) s).2)) with
              bytecode := (markUsed ("__literal_" ++ value)
                (add_store (define_variable ("__literal_" ++ value) s).1
                  (add_push value (define_variable ("__literal_" ++ value) s).2))).bytecode ++
                [print_instr (define_variable ("__literal_" ++ value) s).1] } : CState).vars =
          (markUsed ("__literal_" ++ value)
            (define_variable ("__literal_" ++ value) s).2).vars from rfl]
      rw [lookupVar_markUsed, hinfo]
      rfl
    · simp [hidx]
  · intro hlit
    constructor
    · intro hnone
      unfold handle_print
      rw [if_neg (by simp)]
      dsimp only
      rw [show (["print", value].getD 1 "") = value from rfl, hlit]
      simp [use_variable, hnone]
    · intro info hinfo
      unfold handle_print
      rw [if_neg (by simp)]
      dsimp only
      rw [show (["print", value].getD 1 "") = value from rfl, hlit]
      simp [use_variable, hinfo]
      rfl

/-- C2: a successful `handle_while` run appends condition code `c`, a patched
"jump if zero", the body code `b`, and an unconditional back jump; the back
jump targets the address recorded at the start of the condition evaluation
(the entry program length), and the patched "jump if zero" targets the address
immediately after the back jump, i.e. the loop's end address (the final
program length). -/
theorem handle_while_back_edge {fuel : Nat} {cond body : List String} {s s' : CState}
    (h : handle_while fuel cond body s = .ok s') :
    ∃ c b, (∃ s₁, handle_comparison cond s = .ok s₁ ∧ s₁.bytecode = s.bytecode ++ c)
      ∧ s'.bytecode = s.bytecode ++ c ++ [ jz_instr s'.bytecode.length] ++ b ++
          [ jmp_instr s.bytecode.length] := by
  cases fuel with
  | zero => cases h
  | succ fuel =>
    simp only [handle_while] at h
    split at h
    · cases h
    · rename_i s₁ hcmp
      split at h
      · cases h
      · rename_i s₃ hbody
        cases h
        obtain ⟨c, hc, -⟩ := handle_comparison_shape hcmp
        obtain ⟨b, hb, -⟩ := (trio_shape fuel).1 _ _ _ hbody
        refine ⟨c, b, ⟨s₁, hcmp, hc⟩, ?_⟩
        simp only [hc] at hb
        dsimp only at hb ⊢
        rw [hb, hc]
        rw [show ((s.bytecode ++ c) ++ ["PLACEHOLDER_JZ"]) ++ b ++
              [ jmp_instr s.bytecode.length] =
            (s.bytecode ++ c) ++ ("PLACEHOLDER_JZ" ::
              (b ++ [ jmp_instr s.bytecode.length])) from by simp,
          set_append_len]
        simp only [List.length_set, List.length_append, List.length_cons, List.length_nil,
          List.length_singleton]
        simp [List.append_assoc]

/-- C1: on a successful `handle_if` run, if the construct has an else branch
(the `has_else` flag and a depth-0 `else` both present) the patched "jump if
zero" targets the address of the else branch's first instruction — the slot
right after the then branch's trailing unconditional jump — and that
unconditional jump targets the first address after the else branch's last
instruction (the final program length); without an else branch the patched
"jump if zero" targets the program length immediately after the then branch's
last emitted instruction (again the final program length). -/
theorem handle_if_jump_targets {fuel : Nat} {lines : List String} {hasElse : Bool}
    {s s' : CState} (h : handle_if fuel lines hasElse s = .ok s') :
    ((hasElse = true ∧ (findEndElse lines.tail 1 0 none).1.isSome = true) →
      ∃ c tb eb, s'.bytecode = s.bytecode ++ c ++
          [ jz_instr (s.bytecode.length + c.length + 1 + tb.length + 1)] ++ tb ++
          [ jmp_instr s'.bytecode.length] ++ eb
        ∧ s'.bytecode.length = s.bytecode.length + c.length + 1 + tb.length + 1 + eb.length)
    ∧ (¬(hasElse = true ∧ (findEndElse lines.tail 1 0 none).1.isSome = true) →
      ∃ c tb, s'.bytecode = s.bytecode ++ c ++ [ jz_instr s'.bytecode.length] ++ tb) := by
  cases fuel with
  | zero => cases h
  | succ fuel =>
    simp only [handle_if] at h
    split at h
    · cases h
    · rename_i end_pos hscan
      split at h
      · cases h
      · rename_i s₁ hcmp
        obtain ⟨c, hc, -⟩ := handle_comparison_shape hcmp
        split at h
        · rename_i hcond
          split at h
          · cases h
          · rename_i s₃ hthen
            split at h
            · cases h
            · rename_i s₅ helse
              cases h
              obtain ⟨tb, htb, -⟩ := (trio_shape fuel).1 _ _ _ hthen
              obtain ⟨eb, heb, -⟩ := (trio_shape fuel).1 _ _ _ helse
              dsimp only at htb heb ⊢
              simp only [hc] at htb
              simp only [htb] at heb
              constructor
              · intro _
                refine ⟨c, tb, eb, ?_, ?_⟩
                · rw [heb, htb, hc]
                  rw [show ((s.bytecode ++ c) ++ ["PLACEHOLDER_JZ"]) ++ tb ++
                        ["PLACEHOLDER_JMP"] ++ eb =
                      (s.bytecode ++ c) ++ ("PLACEHOLDER_JZ" ::
                        (tb ++ "PLACEHOLDER_JMP" :: eb)) from by simp,
                    set_append_len]
                  rw [show (s.bytecode ++ c) ++ ( jz_instr
                        ((((s.bytecode ++ c) ++ ["PLACEHOLDER_JZ"]) ++ tb ++
                          ["PLACEHOLDER_JMP"]).length) ::
                        (tb ++ "PLACEHOLDER_JMP" :: eb)) =
                      ((s.bytecode ++ c) ++ jz_instr
                        ((((s.bytecode ++ c) ++ ["PLACEHOLDER_JZ"]) ++ tb ++
                          ["PLACEHOLDER_JMP"]).length) :: tb) ++
                        ("PLACEHOLDER_JMP" :: eb) from by simp]
                  rw [show (((s.bytecode ++ c) ++ ["PLACEHOLDER_JZ"]) ++ tb).length =
                      ((s.bytecode ++ c) ++ jz_instr
                        ((((s.bytecode ++ c) ++ ["PLACEHOLDER_JZ"]) ++ tb ++
                          ["PLACEHOLDER_JMP"]).length) :: tb).length from by simp,
                    set_append_len]
                  simp only [List.length_set, List.length_append, List.length_cons,
                    List.length_nil, List.length_singleton]
                  simp [List.append_assoc]
                  congr 1
                  omega
                · rw [heb, htb, hc]
                  simp only [List.length_set, List.length_append, List.length_cons,
                    List.length_nil, List.length_singleton]
              · intro hn
                exact absurd hcond hn
        · rename_i hcond
          split at h
          · cases h
          · rename_i s₃ hthen
            cases h
            obtain ⟨tb, htb, -⟩ := (trio_shape fuel).1 _ _ _ hthen
            dsimp only at htb ⊢
            simp only [hc] at htb
            constructor
            · intro hyes
              exact absurd hyes hcond
            · intro _
              refine ⟨c, tb, ?_⟩
              rw [htb, hc]
              rw [show ((s.bytecode ++ c) ++ ["PLACEHOLDER_JZ"]) ++ tb =
                  (s.bytecode ++ c) ++ ("PLACEHOLDER_JZ" :: tb) from by simp,
                set_append_len]
              simp only [List.length_set, List.length_append, List.length_cons,
                List.length_nil, List.length_singleton]
              simp [List.append_assoc]

/-- C9: when `compile` succeeds, the finished instruction sequence (driver
output plus the trailing-halt step) contains no `PLACEHOLDER_JZ` or
`PLACEHOLDER_JMP` entry, and every entry shaped like a jump is a rendered
jump `16 n`/`17 n` whose target `n` — a program length recorded at patch
time — lies between 0 and the final program length. -/
theorem compiled_program_placeholder_free {fuel : Nat} {lines : List String}
    {pkg out : String} (h : compile fuel lines (initState pkg) = .ok out) :
    ∃ s', compile_raw fuel lines (initState pkg) = .ok s'
      ∧ ∀ x ∈ (finalize s').bytecode, instrOk (finalize s').bytecode.length x := by
  unfold compile at h
  split at h
  · cases h
  · rename_i s₁ hraw
    refine ⟨s₁, hraw, ?_⟩
    obtain ⟨tl, he, hp⟩ := (trio_shape fuel).1 _ _ _ hraw
    simp only [initState, List.nil_append] at he
    intro x hx
    by_cases hcond : s₁.bytecode = [] ∨ s₁.bytecode.getLast? ≠ some (toString HALT)
    · rw [show finalize s₁ = add_op HALT s₁ from by unfold finalize; rw [if_pos hcond]]
        at hx ⊢
      simp only [add_op, List.mem_append, List.mem_singleton] at hx
      rcases hx with hx | hx
      · exact instrOk_mono (by simp [add_op]) (hp x (he ▸ hx))
      · subst hx
        exact plain_halt.instrOk _
    · rw [show finalize s₁ = s₁ from by unfold finalize; rw [if_neg hcond]] at hx ⊢
      exact hp x (he ▸ hx)

/-- C3 (amended): a conditional block whose depth-0 closing `end` never
appears in the collected lines makes `handle_if` fail with the missing-end
error — but an unterminated `while` block does not fail at all: the block is
collected to the end of input without error and compilation proceeds (the
separate counterexample shows a full successful `compile` run on an
unterminated loop). -/
theorem missing_end_behaviour (fuel : Nat) (lines : List String) (hasElse : Bool)
    (s : CState) (h : (findEndElse lines.tail 1 0 none).2 = none) :
    handle_if (fuel + 1) lines hasElse s = .error .missingEnd := by
  simp only [handle_if]
  rw [h]

/-- C4 (amended): an assignment line with fewer than four tokens and an
output statement with fewer than two tokens are silently ignored — the
handler returns with the state unchanged, emitting nothing and raising no
error (the code has no `MalformedStatement` failure). -/
theorem short_statements_ignored (segments : List String) (s : CState) :
    (segments.length < 4 → handle_assignment segments s = .ok s)
    ∧ (segments.length < 2 → handle_print segments s = .ok s) := by
  constructor
  · intro hlen
    unfold handle_assignment
    rw [if_pos hlen]
  · intro hlen
    unfold handle_print
    rw [if_pos hlen]


theorem priority_eq (op : String) : MainDraft.priority op = get_priority op := by
  by_cases h1 : op = "+" <;> by_cases h2 : op = "-" <;>
    by_cases h3 : op = "*" <;> by_cases h4 : op = "/" <;>
      simp [MainDraft.priority, get_priority, h1, h2, h3, h4]

theorem popWhile_eq (token : String) : ∀ (stack out : List String),
    MainDraft.popWhile token stack out = popWhile token stack out := by
  intro stack
  induction stack with
  | nil => intro out; rfl
  | cons top rest ih =>
    intro out
    by_cases h1 : top ∈ (["+", "-", "*", "/"] : List String)
    · by_cases h2 : get_priority top ≥ get_priority token
      · simp [MainDraft.popWhile, popWhile, operators, priority_eq, h1, h2, ih]
      · simp [MainDraft.popWhile, popWhile, operators, priority_eq, h1, h2]
    · simp [MainDraft.popWhile, popWhile, operators, h1]

theorem popUntilParen_eq : ∀ (stack out : List String),
    MainDraft.popUntilParen stack out = popUntilParen stack out := by
  intro stack
  induction stack with
  | nil => intro out; rfl
  | cons top rest ih =>
    intro out
    by_cases h1 : top = "("
    · simp [MainDraft.popUntilParen, popUntilParen, h1]
    · simp [MainDraft.popUntilParen, popUntilParen, h1, ih]

theorem shuntGo_eq : ∀ (e out stack : List String),
    MainDraft.shuntGo e out stack = shuntGo e out stack := by
  intro e
  induction e with
  | nil => intro out stack; rfl
  | cons t ts ih =>
    intro out stack
    by_cases h1 : t = "("
    · simp [MainDraft.shuntGo, shuntGo, h1, ih]
    · by_cases h2 : t = ")"
      · simp [MainDraft.shuntGo, shuntGo, h1, h2, popUntilParen_eq, ih]
      · by_cases h3 : t ∈ (["+", "-", "*", "/"] : List String)
        · simp [MainDraft.shuntGo, shuntGo, h1, h2, h3, operators, popWhile_eq, ih]
        · simp [MainDraft.shuntGo, shuntGo, h1, h2, h3, operators, ih]

/-- C10: the standalone shunting-yard lowering of `expression_parser.py` and
the superseded draft's `Compiler.infix_to_postfix` in `main.py` return the
same postfix token list on every input. -/
theorem shunting_yard_equivalence (expression : List String) :
    infix_to_postfix expression = MainDraft.infix_to_postfix expression := by
  unfold infix_to_postfix MainDraft.infix_to_postfix
  rw [shuntGo_eq]

/-! ### Witnesses and counterexamples -/

/-- C1 witness: a conditional with an else branch, at concrete input. -/
theorem handle_if_jump_targets_witness :
    ∃ c tb eb,
      (⟨["1 0 0 0 1", "1 0 0 0 2", "12", "17 6", "9", "16 7", "9"], [], 0, "p"⟩ :
          CState).bytecode =
        (initState "p").bytecode ++ c ++
          [ jz_instr ((initState "p").bytecode.length + c.length + 1 + tb.length + 1)] ++ tb ++
          [ jmp_instr (⟨["1 0 0 0 1", "1 0 0 0 2", "12", "17 6", "9", "16 7", "9"], [], 0,
              "p"⟩ : CState).bytecode.length] ++ eb
      ∧ (⟨["1 0 0 0 1", "1 0 0 0 2", "12", "17 6", "9", "16 7", "9"], [], 0, "p"⟩ :
          CState).bytecode.length =
        (initState "p").bytecode.length + c.length + 1 + tb.length + 1 + eb.length :=
  (@handle_if_jump_targets 9 ["if 1 < 2", "halt", "else", "halt", "end"] true (initState "p")
    ⟨["1 0 0 0 1", "1 0 0 0 2", "12", "17 6", "9", "16 7", "9"], [], 0, "p"⟩
    (by decide)).1 (by decide)

/-- C2 witness: a loop with body `halt`, at concrete input. -/
theorem handle_while_back_edge_witness :
    ∃ c b, (∃ s₁, handle_comparison ["1", "<", "2"] (initState "p") = .ok s₁
        ∧ s₁.bytecode = (initState "p").bytecode ++ c)
      ∧ (⟨["1 0 0 0 1", "1 0 0 0 2", "12", "17 6", "9", "16 0"], [], 0, "p"⟩ :
          CState).bytecode =
        (initState "p").bytecode ++ c ++
          [ jz_instr (⟨["1 0 0 0 1", "1 0 0 0 2", "12", "17 6", "9", "16 0"], [], 0,
              "p"⟩ : CState).bytecode.length] ++ b ++
          [ jmp_instr (initState "p").bytecode.length] :=
  @handle_while_back_edge 9 ["1", "<", "2"] ["halt"] (initState "p")
    ⟨["1 0 0 0 1", "1 0 0 0 2", "12", "17 6", "9", "16 0"], [], 0, "p"⟩ (by decide)

/-- C3 counterexample: an unterminated `while` block compiles successfully —
no `MissingBlockTerminator`-style failure occurs and a full output program is
produced, contradicting the claim for loop blocks. -/
theorem unterminated_while_counterexample :
    compile 10 ["while 1 < 2"] (initState "p") =
      .ok "# Package: p\n#\n#\n#\n1 0 0 0 1\n1 0 0 0 2\n12\n17 5\n16 0\n9" := by
  decide

/-- C3 witness: an unterminated `if` block does fail with the missing-end
error. -/
theorem missing_end_behaviour_witness :
    handle_if 1 ["if 1 < 2"] false (initState "p") = .error .missingEnd :=
  missing_end_behaviour 0 ["if 1 < 2"] false (initState "p") (by decide)

/-- C4 counterexample: an assignment line with only two tokens compiles
successfully (the statement is silently dropped), contradicting the claimed
`MalformedStatement` failure. -/
theorem short_statement_counterexample :
    compile 5 ["let x"] (initState "p") = .ok "# Package: p\n#\n#\n#\n9" := by
  decide

/-- C4 witness: concrete short statements are ignored with unchanged state. -/
theorem short_statements_ignored_witness :
    handle_assignment ["let", "x"] (initState "p") = .ok (initState "p")
    ∧ handle_print ["print"] (initState "p") = .ok (initState "p") :=
  ⟨(short_statements_ignored ["let", "x"] (initState "p")).1 (by decide),
    (short_statements_ignored ["print"] (initState "p")).2 (by decide)⟩

/-- C6 witness: a program defining `x` without reading it fails naming `x`;
one that reads it succeeds. -/
theorem compile_unused_gate_witness :
    compile 5 ["let x = 5"] (initState "p") = .error (.unusedVariables ["x"])
    ∧ ∃ out, compile 5 ["let x = 5", "print x"] (initState "p") = .ok out :=
  ⟨(@compile_unused_gate 5 ["let x = 5"] "p"
      ⟨["1 0 0 0 5", "3 0"], [("x", ⟨0, true, false⟩)], 1, "p"⟩ (by decide)).1 (by decide),
    (@compile_unused_gate 5 ["let x = 5", "print x"] "p"
      ⟨["1 0 0 0 5", "3 0", "8 0"], [("x", ⟨0, true, true⟩)], 1, "p"⟩ (by decide)).2
      (by decide)⟩

/-- C7 witness: reading the undefined name `y` fails through every read path. -/
theorem variable_use_gate_witness :
    use_variable "y" (⟨[], [("x", ⟨0, true, false⟩)], 1, "p"⟩ : CState) =
      .error (.undefinedVariable "y")
    ∧ parse_operand "y" (⟨[], [("x", ⟨0, true, false⟩)], 1, "p"⟩ : CState) =
      .error (.undefinedVariable "y")
    ∧ handle_print ["print", "y"] (⟨[], [("x", ⟨0, true, false⟩)], 1, "p"⟩ : CState) =
      .error (.undefinedVariable "y") := by
  have h := (variable_use_gate "y" ⟨[], [("x", ⟨0, true, false⟩)], 1, "p"⟩).2 (by decide)
  exact ⟨h.1, (h.2 (by decide)).1, (h.2 (by decide)).2⟩

/-- C8 witness: printing the literal `5` from a fresh compiler. -/
theorem print_statement_spec_witness :
    ∃ s' info, handle_print ["print", "5"] (initState "p") = .ok s'
      ∧ s'.bytecode = (initState "p").bytecode ++
          [push_instr "5", store_instr (define_variable ("__literal_" ++ "5") (initState "p")).1,
            print_instr (define_variable ("__literal_" ++ "5") (initState "p")).1]
      ∧ lookupVar s'.vars ("__literal_" ++ "5") = some info
      ∧ info.index = (define_variable ("__literal_" ++ "5") (initState "p")).1
      ∧ info.used = true :=
  (print_statement_spec "5" (initState "p")).1 (by decide)

/-- C9 witness: a successfully compiled program with a two-branch conditional
has a placeholder-free, jump-bounded instruction sequence. -/
theorem compiled_program_placeholder_free_witness :
    ∃ s', compile_raw 20 ["let a = 5", "if a > 3", "print a", "else", "print a", "end"]
        (initState "p") = .ok s'
      ∧ ∀ x ∈ (finalize s').bytecode, instrOk (finalize s').bytecode.length x :=
  @compiled_program_placeholder_free 20
    ["let a = 5", "if a > 3", "print a", "else", "print a", "end"] "p"
    "# Package: p\n#\n#\n#\n1 0 0 0 5\n3 0\n2 0\n1 0 0 0 3\n14\n17 8\n8 0\n16 9\n8 0\n9"
    (by decide)

end Elin
